import Mathlib

/-!
# Verification of the Tegami message-processing pipeline

Shallow embedding of the body-extraction and dual-format rendering code of
`smtp.go` (`ProcessMessage`, `readMessageBody`, `readMultipartBody`,
`convertToMarkdown`), together with proofs of the specification's claims
about it.

Modelling choices:

* A raw message handed to `message.Read` is modelled after parsing: the
  `Except Err ParsedMsg` input stands for the result of `message.Read`,
  a `ParsedMsg` is either a non-multipart entity (whose `io.ReadAll` result
  on `msg.Body` is an `Except Err String`) or a multipart entity with its
  sibling parts in serialized order plus an optional error produced by
  `NextPart` after the listed parts (instead of `io.EOF`).
* The third-party html-to-markdown library call
  (`converter.ConvertString`) is not part of this repository; theorems
  that depend only on the structure of the Go code abstract it as a
  parameter `convertString`, and a spec-modelled instance `ConvertString`
  is provided for concrete evaluation.
* Go strings are Lean `String`s; the byte-level operations in play
  (regexp replacement of break tags, `strings.TrimSpace`) are defined by
  recursion on the character list.
-/

namespace Tegami

/-- Error values flowing through the pipeline, standing for the Go `error`
values: `message.Read` failures, the package-level `IsNotMultipartError`,
`io.ReadAll` / `NextPart` failures, and a conversion failure of the
markdown library. -/
inductive Err where
  | parseError
  | isNotMultipart
  | readError
  | renderError
  deriving DecidableEq

/-- One MIME sibling part as seen by the loop in `readMultipartBody`:
its declared content type (first return of `p.Header.ContentType()`) and
the result of `io.ReadAll(p.Body)` (which is only consulted when the
content type is `text/plain` or `text/html`). -/
structure Part where
  contentType : String
  content : Except Err String

/-- A successfully parsed entity (`*message.Entity`): either not multipart
(`MultipartReader() == nil`, with the `io.ReadAll(msg.Body)` outcome), or
multipart with its parts in sibling order and an optional terminal
`NextPart` error in place of `io.EOF`. -/
inductive ParsedMsg where
  | single (body : Except Err String)
  | multi (parts : List Part) (tailErr : Option Err)

/-- Go `unicode.IsSpace`, the predicate used by `strings.TrimSpace`:
'\t', '\n', '\v', '\f', '\r', ' ', U+0085, U+00A0 and the Unicode
White_Space code points. -/
def isSpaceGo (c : Char) : Bool :=
  c = ' ' || c = '\t' || c = '\n' || c.toNat = 11 || c.toNat = 12 || c = '\r' ||
  c.toNat = 0x85 || c.toNat = 0xA0 || c.toNat = 0x1680 ||
  (0x2000 ≤ c.toNat && c.toNat ≤ 0x200A) ||
  c.toNat = 0x2028 || c.toNat = 0x2029 ||
  c.toNat = 0x202F || c.toNat = 0x205F || c.toNat = 0x3000

/-- Removal of trailing whitespace, the right half of `strings.TrimSpace`. -/
def trimRightList : List Char → List Char
  | [] => []
  | c :: rest =>
    match trimRightList rest with
    | [] => if isSpaceGo c then [] else [c]
    | r => c :: r

/-- Go `strings.TrimSpace` on the character list: strip leading and trailing
Unicode whitespace. -/
def trimSpaceList (l : List Char) : List Char :=
  trimRightList (l.dropWhile isSpaceGo)

/-- Go `strings.TrimSpace`. -/
def trimSpace (s : String) : String :=
  ⟨trimSpaceList s.data⟩

/-- The letters of a break tag, matched case-insensitively by the `(?i)`
flag of the regexp `(?i)<br>|<br />`. -/
def brLetters (b r : Char) : Bool :=
  (b = 'b' || b = 'B') && (r = 'r' || r = 'R')

/-- The call `breakRegex.ReplaceAllString(body, "\n")` for
`breakRegex = (?i)<br>|<br />`: a left-to-right scan replacing each
leftmost match of `<br>` or `<br />` (letters case-insensitive) by a
single newline. -/
def replaceBreaksList : List Char → List Char
  | '<' :: b :: r :: '>' :: rest2 =>
    if brLetters b r then '\n' :: replaceBreaksList rest2
    else '<' :: replaceBreaksList (b :: r :: '>' :: rest2)
  | '<' :: b :: r :: ' ' :: '/' :: '>' :: rest2 =>
    if brLetters b r then '\n' :: replaceBreaksList rest2
    else '<' :: replaceBreaksList (b :: r :: ' ' :: '/' :: '>' :: rest2)
  | c :: rest => c :: replaceBreaksList rest
  | [] => []

/-- Number of matches the regexp `(?i)<br>|<br />` finds in the input
(the same scan as `replaceBreaksList`, counting instead of replacing). -/
def brMatchCount : List Char → Nat
  | '<' :: b :: r :: '>' :: rest2 =>
    if brLetters b r then brMatchCount rest2 + 1
    else brMatchCount (b :: r :: '>' :: rest2)
  | '<' :: b :: r :: ' ' :: '/' :: '>' :: rest2 =>
    if brLetters b r then brMatchCount rest2 + 1
    else brMatchCount (b :: r :: ' ' :: '/' :: '>' :: rest2)
  | _ :: rest => brMatchCount rest
  | [] => 0

/-- Number of break tags as the specification words them (§4.2 step 1):
`<br>`, case-insensitive, with or without the self-closing slash, with or
without a space preceding the slash — i.e. also counting `<br/>`. -/
def specBreakTagCount : List Char → Nat
  | '<' :: b :: r :: '>' :: rest2 =>
    if brLetters b r then specBreakTagCount rest2 + 1
    else specBreakTagCount (b :: r :: '>' :: rest2)
  | '<' :: b :: r :: '/' :: '>' :: rest2 =>
    if brLetters b r then specBreakTagCount rest2 + 1
    else specBreakTagCount (b :: r :: '/' :: '>' :: rest2)
  | '<' :: b :: r :: ' ' :: '/' :: '>' :: rest2 =>
    if brLetters b r then specBreakTagCount rest2 + 1
    else specBreakTagCount (b :: r :: ' ' :: '/' :: '>' :: rest2)
  | _ :: rest => specBreakTagCount rest
  | [] => 0

/-- Network line breaks: each CR LF pair becomes a single LF. -/
def normalizeCRLF : List Char → List Char
  | '\r' :: '\n' :: rest => '\n' :: normalizeCRLF rest
  | c :: rest => c :: normalizeCRLF rest
  | [] => []

/-- A single left-to-right pass replacing each occurrence of the exact
character sequence `tag` by `rep`; the fuel argument (instantiated with
the length of the scanned list, which bounds the number of steps) makes
the recursion structural. -/
def replaceTagFuel (tag rep : List Char) : Nat → List Char → List Char
  | _, [] => []
  | 0, l => l
  | fuel + 1, c :: rest =>
    if tag.isPrefixOf (c :: rest) then
      rep ++ replaceTagFuel tag rep fuel ((c :: rest).drop tag.length)
    else c :: replaceTagFuel tag rep fuel rest

/-- Replace every occurrence of `tag` by `rep`, scanning left to right. -/
def replaceTag (tag rep l : List Char) : List Char :=
  replaceTagFuel tag rep l.length l

/-- The markup-to-markdown punctuation table of §4.2 step 3 of the spec:
`<b>`/`<strong>` delimiters become `**`, `<i>`/`<em>` become `_`,
`<h1>`…`<h6>` become `#`…`######` prefixes, and a closing heading tag is
followed by a blank line. -/
def tagReplacements : List (List Char × List Char) :=
  [(['<', 'b', '>'], ['*', '*']),
   (['<', '/', 'b', '>'], ['*', '*']),
   (['<', 's', 't', 'r', 'o', 'n', 'g', '>'], ['*', '*']),
   (['<', '/', 's', 't', 'r', 'o', 'n', 'g', '>'], ['*', '*']),
   (['<', 'i', '>'], ['_']),
   (['<', '/', 'i', '>'], ['_']),
   (['<', 'e', 'm', '>'], ['_']),
   (['<', '/', 'e', 'm', '>'], ['_']),
   (['<', 'h', '1', '>'], ['#', ' ']),
   (['<', 'h', '2', '>'], ['#', '#', ' ']),
   (['<', 'h', '3', '>'], ['#', '#', '#', ' ']),
   (['<', 'h', '4', '>'], ['#', '#', '#', '#', ' ']),
   (['<', 'h', '5', '>'], ['#', '#', '#', '#', '#', ' ']),
   (['<', 'h', '6', '>'], ['#', '#', '#', '#', '#', '#', ' ']),
   (['<', '/', 'h', '1', '>'], ['\n', '\n']),
   (['<', '/', 'h', '2', '>'], ['\n', '\n']),
   (['<', '/', 'h', '3', '>'], ['\n', '\n']),
   (['<', '/', 'h', '4', '>'], ['\n', '\n']),
   (['<', '/', 'h', '5', '>'], ['\n', '\n']),
   (['<', '/', 'h', '6', '>'], ['\n', '\n'])]

/-- Apply each (tag, replacement) pass in order. -/
def foldTags (ps : List (List Char × List Char)) (l : List Char) : List Char :=
  match ps with
  | [] => l
  | q :: rest => foldTags rest (replaceTag q.1 q.2 l)

/-- Modelled from the spec: the `converter.ConvertString` call of the
third-party html-to-markdown library used inside `convertToMarkdown`; the
library's source is not part of this repository.  Following §4.2 and §6 of
the spec: rendered output uses a single linefeed as the line separator
(network CR LF pairs become LF), heading/bold/italic markup becomes
markdown punctuation, markup-free text is left unchanged (no-op), and the
result is trimmed of leading/trailing whitespace.  This model never
fails; theorems about failure of the conversion abstract over the
converter instead. -/
def ConvertString (s : String) : Except Err String :=
  Except.ok ⟨trimSpaceList (foldTags tagReplacements (normalizeCRLF s.data))⟩

/-- Function `convertToMarkdown` from `smtp.go`, with the library call injected as
the parameter `convertString`: on a library error the function returns
the empty string together with the error, otherwise the converted body. -/
def convertToMarkdownWith (convertString : String → Except Err String)
    (body : String) : Except Err String :=
  match convertString body with
  | Except.error e => Except.error e
  | Except.ok markdownBody => Except.ok markdownBody

/-- Function `convertToMarkdown` from `smtp.go` with the spec-modelled library. -/
def convertToMarkdown : String → Except Err String :=
  convertToMarkdownWith ConvertString

/-- The part loop of `readMultipartBody` in `smtp.go`: `acc` is the
`strings.Builder` accumulator.  A part whose content type is neither
`text/plain` nor `text/html` is skipped without being read; a failing
read aborts; a `text/html` part discards the accumulator, becomes the
whole result and stops the scan; a `text/plain` part is appended. -/
def rmbLoop : List Part → Option Err → String → Except Err String
  | [], none, acc => Except.ok acc
  | [], some e, _ => Except.error e
  | p :: rest, te, acc =>
    if p.contentType = "text/plain" ∨ p.contentType = "text/html" then
      match p.content with
      | Except.error e => Except.error e
      | Except.ok bytes =>
        if p.contentType = "text/html" then Except.ok bytes
        else rmbLoop rest te (acc ++ bytes)
    else rmbLoop rest te acc

/-- Function `readMultipartBody` from `smtp.go`: `IsNotMultipartError` when the
entity has no multipart reader, otherwise the part loop starting from an
empty accumulator. -/
def readMultipartBody : ParsedMsg → Except Err String
  | ParsedMsg.single _ => Except.error Err.isNotMultipart
  | ParsedMsg.multi parts te => rmbLoop parts te ""

/-- The read `io.ReadAll(msg.Body)` for the fall-through branch of
`readMessageBody`.  It is only reached for non-multipart entities
(`readMultipartBody` returns `IsNotMultipartError` exactly then); the
multipart branch is modelled as an empty read. -/
def readEntityBody : ParsedMsg → Except Err String
  | ParsedMsg.single body => body
  | ParsedMsg.multi _ _ => Except.ok ""

/-- Function `readMessageBody` from `smtp.go`: propagate a `message.Read` failure,
try the multipart path, fall through to reading the whole body only on
`IsNotMultipartError`. -/
def readMessageBody (m : Except Err ParsedMsg) : Except Err String :=
  match m with
  | Except.error e => Except.error e
  | Except.ok msg =>
    match readMultipartBody msg with
    | Except.ok multipartBody => Except.ok multipartBody
    | Except.error e =>
      if e = Err.isNotMultipart then readEntityBody msg
      else Except.error e

/-- Function `ProcessMessage` from `smtp.go`, with the markdown library call
injected: extract the body, replace break tags by newlines, trim, convert
to markdown, and return the trimmed body together with the markdown body
and the conversion outcome. -/
def ProcessMessageWith (convertString : String → Except Err String)
    (m : Except Err ParsedMsg) : String × String × Option Err :=
  match readMessageBody m with
  | Except.error e => ("", "", some e)
  | Except.ok body =>
    let brBody : String := ⟨replaceBreaksList body.data⟩
    let trimmedBody := trimSpace brBody
    match convertToMarkdownWith convertString trimmedBody with
    | Except.error e => (trimmedBody, "", some e)
    | Except.ok markdownBody => (trimmedBody, markdownBody, none)

/-- Function `ProcessMessage` from `smtp.go` with the spec-modelled markdown
library. -/
def ProcessMessage : Except Err ParsedMsg → String × String × Option Err :=
  ProcessMessageWith ConvertString

/-- True iff every carriage return in the list is immediately followed
by a linefeed — i.e. the text uses network line breaks only, with no
stray CR. -/
def crOk : List Char → Bool
  | [] => true
  | [c] => c ≠ '\r'
  | c :: d :: rest => (c ≠ '\r' || d = '\n') && crOk (d :: rest)

/-- True iff the list contains a CR LF pair. -/
def hasCRLF : List Char → Bool
  | '\r' :: '\n' :: _ => true
  | _ :: rest => hasCRLF rest
  | [] => false

/-- True iff the list neither starts nor ends with whitespace. -/
def trimmedEdges (l : List Char) : Bool :=
  match l.head?, l.getLast? with
  | some a, some b => !isSpaceGo a && !isSpaceGo b
  | _, _ => true

/-- The concatenation, in sibling order, of the contents of the
`text/plain` parts of a list of (content type, content) pairs — the
expected result of multipart extraction when no HTML part appears. -/
def plainConcat : List (String × String) → String
  | [] => ""
  | q :: rest => (if q.1 = "text/plain" then q.2 else "") ++ plainConcat rest

section ScannerLemmas

theorem replaceBreaksList_cons_of_ne (c : Char) (l : List Char) (h : c ≠ '<') :
    replaceBreaksList (c :: l) = c :: replaceBreaksList l := by
  rw [replaceBreaksList.eq_def]
  split <;> simp_all

theorem normalizeCRLF_cons_of_ne (c : Char) (l : List Char) (h : c ≠ '\r') :
    normalizeCRLF (c :: l) = c :: normalizeCRLF l := by
  rw [normalizeCRLF.eq_def]
  split <;> simp_all

theorem replaceBreaksList_eq_self (l : List Char) (h : '<' ∉ l) :
    replaceBreaksList l = l := by
  induction l with
  | nil => rfl
  | cons c rest ih =>
    have hc : c ≠ '<' := fun he => h (he ▸ List.mem_cons_self c rest)
    rw [replaceBreaksList_cons_of_ne c rest hc,
      ih (fun hm => h (List.mem_cons_of_mem c hm))]

theorem normalizeCRLF_eq_self (l : List Char) (h : '\r' ∉ l) :
    normalizeCRLF l = l := by
  induction l with
  | nil => rfl
  | cons c rest ih =>
    have hc : c ≠ '\r' := fun he => h (he ▸ List.mem_cons_self c rest)
    rw [normalizeCRLF_cons_of_ne c rest hc,
      ih (fun hm => h (List.mem_cons_of_mem c hm))]

theorem mem_replaceTagFuel (tag rep : List Char) (fuel : Nat) (l : List Char) (x : Char)
    (hx : x ∈ replaceTagFuel tag rep fuel l) : x ∈ rep ∨ x ∈ l := by
  induction fuel generalizing l with
  | zero =>
    cases l with
    | nil => simp [replaceTagFuel] at hx
    | cons c rest => exact Or.inr hx
  | succ fuel ih =>
    cases l with
    | nil => simp [replaceTagFuel] at hx
    | cons c rest =>
      by_cases hp : tag.isPrefixOf (c :: rest)
      · rw [replaceTagFuel, if_pos hp] at hx
        rcases List.mem_append.1 hx with h1 | h2
        · exact Or.inl h1
        · rcases ih _ h2 with h3 | h4
          · exact Or.inl h3
          · exact Or.inr (List.mem_of_mem_drop h4)
      · rw [replaceTagFuel, if_neg hp] at hx
        rcases List.mem_cons.1 hx with rfl | h2
        · exact Or.inr (List.mem_cons_self _ _)
        · rcases ih _ h2 with h3 | h4
          · exact Or.inl h3
          · exact Or.inr (List.mem_cons_of_mem c h4)

theorem replaceTagFuel_eq_self (tag rep : List Char)
    (htag : tag.head? = some '<') (fuel : Nat) (l : List Char) (h : '<' ∉ l) :
    replaceTagFuel tag rep fuel l = l := by
  obtain ⟨tagTail, rfl⟩ : ∃ t, tag = '<' :: t := by
    cases tag with
    | nil => exact absurd htag (by simp)
    | cons t0 ttail => exact ⟨ttail, by simpa using htag⟩
  induction fuel generalizing l with
  | zero =>
    cases l with
    | nil => rfl
    | cons c rest => rfl
  | succ fuel ih =>
    cases l with
    | nil => rfl
    | cons c rest =>
      have hc : c ≠ '<' := fun he => h (he ▸ List.mem_cons_self c rest)
      have hb : ('<' == c) = false := beq_eq_false_iff_ne.2 (fun he => hc he.symm)
      have hp : (('<' :: tagTail).isPrefixOf (c :: rest)) = false := by
        simp [List.isPrefixOf, hb]
      rw [replaceTagFuel, hp]
      simp only [Bool.false_eq_true, if_false, List.cons.injEq, true_and]
      exact ih rest (fun hm => h (List.mem_cons_of_mem c hm))

theorem foldTags_eq_self (ps : List (List Char × List Char)) (l : List Char)
    (hps : ∀ q ∈ ps, q.1.head? = some '<') (h : '<' ∉ l) :
    foldTags ps l = l := by
  induction ps with
  | nil => rfl
  | cons q rest ih =>
    rw [foldTags, show replaceTag q.1 q.2 l = l from
      replaceTagFuel_eq_self q.1 q.2 (hps q (List.mem_cons_self q rest)) l.length l h]
    exact ih (fun p hp => hps p (List.mem_cons_of_mem q hp))

theorem not_mem_foldTags (ps : List (List Char × List Char)) (l : List Char)
    (x : Char) (hx : x ∉ l) (hps : ∀ q ∈ ps, x ∉ q.2) :
    x ∉ foldTags ps l := by
  induction ps generalizing l with
  | nil => exact hx
  | cons q rest ih =>
    rw [foldTags]
    refine ih (replaceTag q.1 q.2 l) ?_ (fun p hp => hps p (List.mem_cons_of_mem q hp))
    intro hmem
    rcases mem_replaceTagFuel q.1 q.2 l.length l x hmem with h1 | h2
    · exact hps q (List.mem_cons_self q rest) h1
    · exact hx h2

end ScannerLemmas

section TrimLemmas

theorem trimRightList_cons (c : Char) (rest : List Char) :
    trimRightList (c :: rest) =
      match trimRightList rest with
      | [] => if isSpaceGo c then [] else [c]
      | r => c :: r := rfl

theorem trimRightList_cons_of_nil (c : Char) (rest : List Char)
    (h : trimRightList rest = []) :
    trimRightList (c :: rest) = if isSpaceGo c then [] else [c] := by
  rw [trimRightList_cons, h]

theorem trimRightList_cons_of_cons (c x : Char) (rest xs : List Char)
    (h : trimRightList rest = x :: xs) :
    trimRightList (c :: rest) = c :: x :: xs := by
  rw [trimRightList_cons, h]

theorem head?_dropWhile_not_space (l : List Char) (c : Char)
    (h : (l.dropWhile isSpaceGo).head? = some c) : isSpaceGo c = false := by
  have h2 := List.head?_dropWhile_not isSpaceGo l
  rw [h] at h2
  exact h2

theorem dropWhile_eq_self_of_head (p : Char → Bool) (l : List Char)
    (h : ∀ c, l.head? = some c → p c = false) : l.dropWhile p = l := by
  cases l with
  | nil => rfl
  | cons c rest =>
    have hc := h c rfl
    simp [List.dropWhile_cons, hc]

theorem trimRightList_sublist (l : List Char) : List.Sublist (trimRightList l) l := by
  induction l with
  | nil => exact List.Sublist.refl []
  | cons c rest ih =>
    cases htr : trimRightList rest with
    | nil =>
      rw [trimRightList_cons_of_nil c rest htr]
      by_cases hc : isSpaceGo c
      · rw [if_pos hc]
        exact List.nil_sublist _
      · rw [if_neg hc]
        exact (List.nil_sublist rest).cons₂ c
    | cons x xs =>
      rw [trimRightList_cons_of_cons c x rest xs htr]
      exact (htr ▸ ih).cons₂ c

theorem head?_trimRightList (l : List Char) (hne : trimRightList l ≠ []) :
    (trimRightList l).head? = l.head? := by
  cases l with
  | nil => rfl
  | cons c rest =>
    cases htr : trimRightList rest with
    | nil =>
      rw [trimRightList_cons_of_nil c rest htr] at hne ⊢
      by_cases hc : isSpaceGo c
      · rw [if_pos hc] at hne
        exact absurd rfl hne
      · rw [if_neg hc]
        rfl
    | cons x xs =>
      rw [trimRightList_cons_of_cons c x rest xs htr]
      rfl

theorem getLast?_trimRightList_not_space (l : List Char) (c : Char)
    (h : (trimRightList l).getLast? = some c) : isSpaceGo c = false := by
  induction l with
  | nil => exact absurd h (by simp [trimRightList])
  | cons a rest ih =>
    cases htr : trimRightList rest with
    | nil =>
      rw [trimRightList_cons_of_nil a rest htr] at h
      by_cases ha : isSpaceGo a
      · rw [if_pos ha] at h
        exact absurd h (by simp)
      · rw [if_neg ha] at h
        simp only [List.getLast?_singleton, Option.some.injEq] at h
        subst h
        simp only [Bool.not_eq_true] at ha
        exact ha
    | cons x xs =>
      rw [trimRightList_cons_of_cons a x rest xs htr, List.getLast?_cons_cons] at h
      exact ih (htr ▸ h)

theorem trimRightList_eq_self (l : List Char)
    (h : ∀ c, l.getLast? = some c → isSpaceGo c = false) : trimRightList l = l := by
  induction l with
  | nil => rfl
  | cons a rest ih =>
    cases rest with
    | nil =>
      have ha := h a (by simp)
      rw [trimRightList_cons_of_nil a [] rfl, if_neg (by simp [ha])]
    | cons x xs =>
      have hrest : trimRightList (x :: xs) = x :: xs :=
        ih (fun c hc => h c (by rw [List.getLast?_cons_cons]; exact hc))
      rw [trimRightList_cons_of_cons a x (x :: xs) xs hrest]

theorem mem_trimSpaceList (l : List Char) (x : Char) (hx : x ∈ trimSpaceList l) :
    x ∈ l := by
  have h1 : List.Sublist (trimSpaceList l) l :=
    (trimRightList_sublist _).trans (List.dropWhile_sublist isSpaceGo)
  exact h1.subset hx

theorem trimmedEdges_trimSpaceList (l : List Char) :
    trimmedEdges (trimSpaceList l) = true := by
  rw [trimmedEdges]
  cases hh : (trimSpaceList l).head? with
  | none => rfl
  | some a =>
    cases hg : (trimSpaceList l).getLast? with
    | none => rfl
    | some b =>
      have hne : trimRightList (l.dropWhile isSpaceGo) ≠ [] := by
        intro he
        rw [trimSpaceList, he] at hh
        exact Option.noConfusion hh
      have ha : isSpaceGo a = false := by
        apply head?_dropWhile_not_space l a
        rw [← head?_trimRightList _ hne]
        exact hh
      have hb : isSpaceGo b = false :=
        getLast?_trimRightList_not_space (l.dropWhile isSpaceGo) b hg
      simp [ha, hb]

theorem trimSpaceList_idem (l : List Char) :
    trimSpaceList (trimSpaceList l) = trimSpaceList l := by
  rw [trimSpaceList]
  rw [dropWhile_eq_self_of_head isSpaceGo (trimSpaceList l) (fun c hc => by
    have hne : trimRightList (l.dropWhile isSpaceGo) ≠ [] := by
      intro he
      rw [trimSpaceList, he] at hc
      exact Option.noConfusion hc
    apply head?_dropWhile_not_space l c
    rw [← head?_trimRightList _ hne]
    exact hc)]
  exact trimRightList_eq_self _ (fun c hc =>
    getLast?_trimRightList_not_space (l.dropWhile isSpaceGo) c hc)

end TrimLemmas

section CrLemmas

theorem crOk_cons_of_ne (c : Char) (l : List Char) (h : c ≠ '\r') :
    crOk (c :: l) = crOk l := by
  cases l with
  | nil => simp [crOk, h]
  | cons d rest => simp [crOk, h]

theorem crOk_crlf (l : List Char) : crOk ('\r' :: '\n' :: l) = crOk ('\n' :: l) := by
  simp [crOk]

theorem hasCRLF_cons_of_ne (c : Char) (l : List Char) (h : c ≠ '\r') :
    hasCRLF (c :: l) = hasCRLF l := by
  rw [hasCRLF.eq_def]
  split <;> simp_all

theorem crOk_cr (l : List Char) (h : crOk ('\r' :: l) = true) :
    ∃ l2, l = '\n' :: l2 ∧ crOk ('\n' :: l2) = true := by
  cases l with
  | nil => exact absurd h (by decide)
  | cons x xs =>
    rw [crOk] at h
    rcases Bool.and_eq_true_iff.1 h with ⟨h1, h2⟩
    have hx : x = '\n' := by
      rcases Bool.or_eq_true_iff.1 h1 with h3 | h4
      · exact absurd h3 (by decide)
      · simpa using h4
    subst hx
    exact ⟨xs, rfl, h2⟩

theorem crOk_tail (c : Char) (l : List Char) (h : crOk (c :: l) = true) :
    crOk l = true := by
  cases l with
  | nil => rfl
  | cons d rest =>
    rw [crOk] at h
    exact (Bool.and_eq_true_iff.1 h).2

theorem crOk_dropWhile (l : List Char) (h : crOk l = true) :
    crOk (l.dropWhile isSpaceGo) = true := by
  induction l with
  | nil => exact h
  | cons c rest ih =>
    by_cases hc : isSpaceGo c
    · rw [List.dropWhile_cons_of_pos hc]
      exact ih (crOk_tail c rest h)
    · rw [List.dropWhile_cons_of_neg (by simp [hc])]
      exact h

theorem crOk_trimRightList (l : List Char) (h : crOk l = true) :
    crOk (trimRightList l) = true := by
  induction l with
  | nil => exact h
  | cons c rest ih =>
    by_cases hc : c = '\r'
    · subst hc
      obtain ⟨l2, rfl, h2⟩ := crOk_cr rest h
      cases h3 : trimRightList l2 with
      | nil =>
        have h4 : trimRightList ('\n' :: l2) = [] := by
          rw [trimRightList_cons_of_nil _ _ h3, if_pos (by decide)]
        rw [trimRightList_cons_of_nil _ _ h4, if_pos (by decide)]
        rfl
      | cons x xs =>
        have h4 : trimRightList ('\n' :: l2) = '\n' :: x :: xs :=
          trimRightList_cons_of_cons _ _ _ _ h3
        rw [trimRightList_cons_of_cons _ _ _ _ h4, crOk_crlf]
        have h5 := ih h2
        rw [h4] at h5
        exact h5
    · rw [crOk_cons_of_ne c rest hc] at h
      have h5 := ih h
      cases h3 : trimRightList rest with
      | nil =>
        rw [trimRightList_cons_of_nil _ _ h3]
        by_cases hsp : isSpaceGo c
        · rw [if_pos hsp]
          rfl
        · rw [if_neg hsp, crOk_cons_of_ne c [] hc]
          rfl
      | cons x xs =>
        rw [trimRightList_cons_of_cons _ _ _ _ h3, crOk_cons_of_ne c (x :: xs) hc]
        rw [h3] at h5
        exact h5

theorem crOk_trimSpaceList (l : List Char) (h : crOk l = true) :
    crOk (trimSpaceList l) = true :=
  crOk_trimRightList _ (crOk_dropWhile _ h)

theorem not_mem_cr_normalizeCRLF (l : List Char) (h : crOk l = true) :
    '\r' ∉ normalizeCRLF l := by
  induction l with
  | nil => simp [normalizeCRLF]
  | cons c rest ih =>
    by_cases hc : c = '\r'
    · subst hc
      obtain ⟨l2, rfl, h2⟩ := crOk_cr rest h
      have h6 := ih h2
      rw [normalizeCRLF_cons_of_ne '\n' l2 (by decide)] at h6
      show '\r' ∉ '\n' :: normalizeCRLF l2
      exact h6
    · rw [normalizeCRLF_cons_of_ne c rest hc]
      rw [crOk_cons_of_ne c rest hc] at h
      have h6 := ih h
      intro hmem
      rcases List.mem_cons.1 hmem with h1 | h2
      · exact hc h1.symm
      · exact h6 h2

theorem hasCRLF_eq_false_of_not_mem (l : List Char) (h : '\r' ∉ l) :
    hasCRLF l = false := by
  induction l with
  | nil => rfl
  | cons c rest ih =>
    have hc : c ≠ '\r' := fun he => h (he ▸ List.mem_cons_self c rest)
    rw [hasCRLF_cons_of_ne c rest hc]
    exact ih (fun hm => h (List.mem_cons_of_mem c hm))

end CrLemmas

section BreakLemmas

theorem crOk_replaceBreaksList (l : List Char) (h : crOk l = true) :
    crOk (replaceBreaksList l) = true := by
  induction l using replaceBreaksList.induct with
  | case1 b r rest2 hbr ih =>
    rw [replaceBreaksList, if_pos hbr, crOk_cons_of_ne '\n' _ (by decide)]
    exact ih (crOk_tail _ _ (crOk_tail _ _ (crOk_tail _ _ (crOk_tail _ _ h))))
  | case2 b r rest2 hbr ih =>
    rw [replaceBreaksList, if_neg hbr, crOk_cons_of_ne '<' _ (by decide)]
    exact ih (crOk_tail _ _ h)
  | case3 b r rest2 hbr ih =>
    rw [replaceBreaksList, if_pos hbr, crOk_cons_of_ne '\n' _ (by decide)]
    exact ih (crOk_tail _ _ (crOk_tail _ _ (crOk_tail _ _ (crOk_tail _ _
      (crOk_tail _ _ (crOk_tail _ _ h))))))
  | case4 b r rest2 hbr ih =>
    rw [replaceBreaksList, if_neg hbr, crOk_cons_of_ne '<' _ (by decide)]
    exact ih (crOk_tail _ _ h)
  | case5 c rest h1 h2 ih =>
    rw [replaceBreaksList.eq_3 c rest h1 h2]
    by_cases hc : c = '\r'
    · subst hc
      obtain ⟨l2, rfl, h3⟩ := crOk_cr rest h
      rw [replaceBreaksList_cons_of_ne '\n' l2 (by decide), crOk_crlf,
        ← replaceBreaksList_cons_of_ne '\n' l2 (by decide)]
      exact ih h3
    · rw [crOk_cons_of_ne c _ hc]
      exact ih (crOk_tail _ _ h)
  | case6 => rfl

theorem count_newline_replaceBreaksList (l : List Char) (h : '\n' ∉ l) :
    (replaceBreaksList l).count '\n' = brMatchCount l := by
  induction l using replaceBreaksList.induct with
  | case1 b r rest2 hbr ih =>
    rw [replaceBreaksList, if_pos hbr, brMatchCount, if_pos hbr, List.count_cons_self,
      ih (fun hm => h (List.mem_cons_of_mem _ (List.mem_cons_of_mem _
        (List.mem_cons_of_mem _ (List.mem_cons_of_mem _ hm)))))]
  | case2 b r rest2 hbr ih =>
    rw [replaceBreaksList, if_neg hbr, brMatchCount, if_neg hbr,
      List.count_cons_of_ne (by decide),
      ih (fun hm => h (List.mem_cons_of_mem _ hm))]
  | case3 b r rest2 hbr ih =>
    rw [replaceBreaksList, if_pos hbr, brMatchCount, if_pos hbr, List.count_cons_self,
      ih (fun hm => h (List.mem_cons_of_mem _ (List.mem_cons_of_mem _
        (List.mem_cons_of_mem _ (List.mem_cons_of_mem _ (List.mem_cons_of_mem _
          (List.mem_cons_of_mem _ hm)))))))]
  | case4 b r rest2 hbr ih =>
    rw [replaceBreaksList, if_neg hbr, brMatchCount, if_neg hbr,
      List.count_cons_of_ne (by decide),
      ih (fun hm => h (List.mem_cons_of_mem _ hm))]
  | case5 c rest h1 h2 ih =>
    have hc : '\n' ≠ c := fun he => h (he ▸ List.mem_cons_self c rest)
    rw [replaceBreaksList.eq_3 c rest h1 h2, brMatchCount.eq_3 c rest h1 h2,
      List.count_cons_of_ne hc,
      ih (fun hm => h (List.mem_cons_of_mem _ hm))]
  | case6 => rfl

end BreakLemmas

section ConverterLemmas

theorem tagReplacements_head (q : List Char × List Char) (hq : q ∈ tagReplacements) :
    q.1.head? = some '<' := by
  fin_cases hq <;> rfl

theorem tagReplacements_no_cr (q : List Char × List Char) (hq : q ∈ tagReplacements) :
    '\r' ∉ q.2 := by
  fin_cases hq <;> decide

theorem foldTags_tags_eq_self (l : List Char) (h : '<' ∉ l) :
    foldTags tagReplacements l = l :=
  foldTags_eq_self tagReplacements l tagReplacements_head h

set_option maxHeartbeats 1000000 in
theorem not_mem_cr_foldTags_tags (l : List Char) (h : '\r' ∉ l) :
    '\r' ∉ foldTags tagReplacements l :=
  not_mem_foldTags tagReplacements l '\r' h tagReplacements_no_cr

theorem ConvertString_plain (s : String) (hlt : '<' ∉ s.data) (hcr : '\r' ∉ s.data) :
    ConvertString s = Except.ok ⟨trimSpaceList s.data⟩ := by
  rw [ConvertString, normalizeCRLF_eq_self s.data hcr, foldTags_tags_eq_self s.data hlt]

theorem not_mem_cr_ConvertString (s : String) (hcr : crOk s.data = true) (t : String)
    (ht : ConvertString s = Except.ok t) : '\r' ∉ t.data := by
  have h1 : '\r' ∉ normalizeCRLF s.data := not_mem_cr_normalizeCRLF s.data hcr
  have h2 : '\r' ∉ foldTags tagReplacements (normalizeCRLF s.data) :=
    not_mem_cr_foldTags_tags (normalizeCRLF s.data) h1
  have h5 : (⟨trimSpaceList (foldTags tagReplacements (normalizeCRLF s.data))⟩ : String) = t :=
    Except.ok.inj ht
  have h6 : t.data = trimSpaceList (foldTags tagReplacements (normalizeCRLF s.data)) := by
    rw [← h5]
  intro hm
  rw [h6] at hm
  exact h2 (mem_trimSpaceList (foldTags tagReplacements (normalizeCRLF s.data)) '\r' hm)

theorem trimmedEdges_ConvertString (s t : String)
    (ht : ConvertString s = Except.ok t) : trimmedEdges t.data = true := by
  have h5 : (⟨trimSpaceList (foldTags tagReplacements (normalizeCRLF s.data))⟩ : String) = t :=
    Except.ok.inj ht
  have h6 : t.data = trimSpaceList (foldTags tagReplacements (normalizeCRLF s.data)) := by
    rw [← h5]
  rw [h6]
  exact trimmedEdges_trimSpaceList (foldTags tagReplacements (normalizeCRLF s.data))

end ConverterLemmas

section MultipartLemmas

theorem rmbLoop_html (pre post : List Part) (hp : Part) (te : Option Err) (hs : String)
    (hpre1 : ∀ p ∈ pre, p.contentType ≠ "text/html")
    (hpre2 : ∀ p ∈ pre, p.contentType = "text/plain" → ∃ s, p.content = Except.ok s)
    (hhtml : hp.contentType = "text/html") (hcontent : hp.content = Except.ok hs)
    (acc : String) :
    rmbLoop (pre ++ hp :: post) te acc = Except.ok hs := by
  induction pre generalizing acc with
  | nil =>
    rw [List.nil_append, rmbLoop, if_pos (Or.inr hhtml)]
    simp only [hcontent]
    rw [if_pos hhtml]
  | cons p pre ih =>
    rw [List.cons_append, rmbLoop]
    by_cases hpl : p.contentType = "text/plain"
    · obtain ⟨s, hs2⟩ := hpre2 p (List.mem_cons_self p pre) hpl
      rw [if_pos (Or.inl hpl)]
      simp only [hs2]
      rw [if_neg (hpre1 p (List.mem_cons_self p pre))]
      exact ih (fun q hq => hpre1 q (List.mem_cons_of_mem p hq))
        (fun q hq => hpre2 q (List.mem_cons_of_mem p hq)) (acc ++ s)
    · have hph : p.contentType ≠ "text/html" := hpre1 p (List.mem_cons_self p pre)
      rw [if_neg (fun hor => hor.elim hpl hph)]
      exact ih (fun q hq => hpre1 q (List.mem_cons_of_mem p hq))
        (fun q hq => hpre2 q (List.mem_cons_of_mem p hq)) acc

theorem rmbLoop_skip_all (parts : List Part) (acc : String)
    (h : ∀ p ∈ parts, p.contentType ≠ "text/plain" ∧ p.contentType ≠ "text/html") :
    rmbLoop parts none acc = Except.ok acc := by
  induction parts generalizing acc with
  | nil => rfl
  | cons p rest ih =>
    obtain ⟨h1, h2⟩ := h p (List.mem_cons_self p rest)
    rw [rmbLoop, if_neg (fun hor => hor.elim h1 h2)]
    exact ih acc (fun q hq => h q (List.mem_cons_of_mem p hq))

theorem rmbLoop_all_plain (ps : List (String × String)) (acc : String)
    (h : ∀ q ∈ ps, q.1 ≠ "text/html") :
    rmbLoop (ps.map fun q => ⟨q.1, Except.ok q.2⟩) none acc =
      Except.ok (acc ++ plainConcat ps) := by
  induction ps generalizing acc with
  | nil => rw [plainConcat, String.append_empty]; rfl
  | cons q rest ih =>
    have hq : q.1 ≠ "text/html" := h q (List.mem_cons_self q rest)
    rw [List.map_cons, rmbLoop, plainConcat]
    by_cases hpl : q.1 = "text/plain"
    · rw [if_pos (Or.inl hpl)]
      simp only []
      rw [if_neg hq, if_pos hpl,
        ih (acc ++ q.2) (fun p hp => h p (List.mem_cons_of_mem q hp)),
        String.append_assoc]
    · rw [if_neg (fun hor => hor.elim hpl hq), if_neg hpl,
        ih acc (fun p hp => h p (List.mem_cons_of_mem q hp))]
      rw [String.empty_append]

end MultipartLemmas

section ProcessLemmas

theorem readMessageBody_ok_of_multipart (msg : ParsedMsg) (b : String)
    (h : readMultipartBody msg = Except.ok b) :
    readMessageBody (Except.ok msg) = Except.ok b := by
  show (match readMultipartBody msg with
    | Except.ok multipartBody => Except.ok multipartBody
    | Except.error e =>
      if e = Err.isNotMultipart then readEntityBody msg else Except.error e) =
    Except.ok b
  rw [h]

theorem readMessageBody_single (body : Except Err String) :
    readMessageBody (Except.ok (ParsedMsg.single body)) = body := by
  cases body with
  | ok b => rfl
  | error e => rfl

theorem ProcessMessageWith_err (cs : String → Except Err String)
    (m : Except Err ParsedMsg) (e : Err) (h : readMessageBody m = Except.error e) :
    ProcessMessageWith cs m = ("", "", some e) := by
  rw [ProcessMessageWith, h]

theorem ProcessMessageWith_ok (cs : String → Except Err String)
    (m : Except Err ParsedMsg) (body : String)
    (hbody : readMessageBody m = Except.ok body) (md : String)
    (hconv : cs (trimSpace ⟨replaceBreaksList body.data⟩) = Except.ok md) :
    ProcessMessageWith cs m = (trimSpace ⟨replaceBreaksList body.data⟩, md, none) := by
  rw [ProcessMessageWith, hbody]
  show (match convertToMarkdownWith cs (trimSpace ⟨replaceBreaksList body.data⟩) with
    | Except.error e => (trimSpace ⟨replaceBreaksList body.data⟩, "", some e)
    | Except.ok markdownBody =>
      (trimSpace ⟨replaceBreaksList body.data⟩, markdownBody, none)) =
    (trimSpace ⟨replaceBreaksList body.data⟩, md, none)
  rw [convertToMarkdownWith, hconv]

theorem ProcessMessageWith_convErr (cs : String → Except Err String)
    (m : Except Err ParsedMsg) (body : String)
    (hbody : readMessageBody m = Except.ok body) (e : Err)
    (hconv : cs (trimSpace ⟨replaceBreaksList body.data⟩) = Except.error e) :
    ProcessMessageWith cs m = (trimSpace ⟨replaceBreaksList body.data⟩, "", some e) := by
  rw [ProcessMessageWith, hbody]
  show (match convertToMarkdownWith cs (trimSpace ⟨replaceBreaksList body.data⟩) with
    | Except.error e => (trimSpace ⟨replaceBreaksList body.data⟩, "", some e)
    | Except.ok markdownBody =>
      (trimSpace ⟨replaceBreaksList body.data⟩, markdownBody, none)) =
    (trimSpace ⟨replaceBreaksList body.data⟩, "", some e)
  rw [convertToMarkdownWith, hconv]

end ProcessLemmas

section ModelValidation

/-- Scenario from the repository tests: a one-line plain body passes
through unchanged in both forms. -/
theorem modelTest_plain_identity :
    ProcessMessage (Except.ok (ParsedMsg.single (Except.ok "This is an email"))) =
      ("This is an email", "This is an email", none) := by rfl

/-- Scenario from the repository tests: bold markup is kept in the
htmlForm and becomes markdown punctuation in the plainForm. -/
theorem modelTest_bold :
    ProcessMessage (Except.ok (ParsedMsg.single
      (Except.ok "This is a <b>strong</b> email"))) =
      ("This is a <b>strong</b> email", "This is a **strong** email", none) := by rfl

/-- Scenario from the repository tests: break tags in both casings and
self-closing-with-space form each become one linefeed in both forms. -/
theorem modelTest_breaks :
    ProcessMessage (Except.ok (ParsedMsg.single
      (Except.ok "line1<br>line2<BR />line3"))) =
      ("line1\nline2\nline3", "line1\nline2\nline3", none) := by rfl

/-- Scenario from the repository tests: the HTML part of a multipart
message wins over the plain part. -/
theorem modelTest_multipart_html_wins :
    readMultipartBody (ParsedMsg.multi
      [⟨"text/plain", Except.ok "Plain"⟩, ⟨"text/html", Except.ok "<b>Bold</b>"⟩]
      none) = Except.ok "<b>Bold</b>" := by rfl

end ModelValidation


section Claims

/-- C1: For every multipart message that contains both a `text/plain` and a
`text/html` part, in either sibling order (readable parts before the HTML
part), the extracted canonical body — the first return of
`readMultipartBody`, and hence the body seen by `ProcessMessage` through
`readMessageBody` — is exactly the content of the first `text/html` part;
previously accumulated `text/plain` content is discarded, and nothing
after the first HTML part (neither the remaining parts nor a pending
stream error) is consumed. -/
theorem C1_html_priority (pre post : List Part) (hp : Part) (te : Option Err)
    (hs : String)
    (hpre1 : ∀ p ∈ pre, p.contentType ≠ "text/html")
    (hpre2 : ∀ p ∈ pre, p.contentType = "text/plain" → ∃ s, p.content = Except.ok s)
    (hhtml : hp.contentType = "text/html") (hcontent : hp.content = Except.ok hs) :
    readMultipartBody (ParsedMsg.multi (pre ++ hp :: post) te) = Except.ok hs ∧
    readMessageBody (Except.ok (ParsedMsg.multi (pre ++ hp :: post) te)) =
      Except.ok hs := by
  have h1 : readMultipartBody (ParsedMsg.multi (pre ++ hp :: post) te) = Except.ok hs :=
    rmbLoop_html pre post hp te hs hpre1 hpre2 hhtml hcontent ""
  exact ⟨h1, readMessageBody_ok_of_multipart _ hs h1⟩

/-- C1 witness: a `text/plain` part followed by a `text/html` part, then an
unreadable part and a pending stream error — the result is the HTML
content, so neither the plain content nor anything after the HTML part
matters. -/
theorem C1_html_priority_witness :
    readMultipartBody (ParsedMsg.multi
      [⟨"text/plain", Except.ok "Plain"⟩,
       ⟨"text/html", Except.ok "<b>Bold</b>"⟩,
       ⟨"text/plain", Except.error Err.readError⟩]
      (some Err.parseError)) = Except.ok "<b>Bold</b>" := by
  have h := C1_html_priority [⟨"text/plain", Except.ok "Plain"⟩]
    [⟨"text/plain", Except.error Err.readError⟩]
    ⟨"text/html", Except.ok "<b>Bold</b>"⟩ (some Err.parseError) "<b>Bold</b>"
    (by
      intro p hp
      rw [List.mem_singleton] at hp
      subst hp
      decide)
    (by
      intro p hp hpl
      rw [List.mem_singleton] at hp
      subst hp
      exact ⟨"Plain", rfl⟩)
    rfl rfl
  exact h.1

/-- C2 counterexample: a multipart message with no `text/plain` and no
`text/html` part makes extraction SUCCEED with the empty string — there is
no `NoContentError` in the code — contradicting the claim that extraction
fails with an error. -/
theorem C2_counterexample :
    readMultipartBody (ParsedMsg.multi
      [⟨"application/pdf", Except.ok "X"⟩] none) = Except.ok "" := rfl

/-- C2 (amended): for every multipart message in which no part is
`text/plain` or `text/html`, extraction succeeds with the empty canonical
body, and `ProcessMessage` returns two empty forms with no error. -/
theorem C2_amended (parts : List Part)
    (h : ∀ p ∈ parts, p.contentType ≠ "text/plain" ∧ p.contentType ≠ "text/html") :
    readMultipartBody (ParsedMsg.multi parts none) = Except.ok "" ∧
    ProcessMessage (Except.ok (ParsedMsg.multi parts none)) = ("", "", none) := by
  have h1 : readMultipartBody (ParsedMsg.multi parts none) = Except.ok "" :=
    rmbLoop_skip_all parts "" h
  have h2 : readMessageBody (Except.ok (ParsedMsg.multi parts none)) = Except.ok "" :=
    readMessageBody_ok_of_multipart _ "" h1
  have h3 := ProcessMessageWith_ok ConvertString _ "" h2 "" rfl
  exact ⟨h1, h3.trans rfl⟩

/-- C2 witness. -/
theorem C2_amended_witness :
    readMultipartBody (ParsedMsg.multi
      [⟨"application/octet-stream", Except.ok "PDF"⟩] none) = Except.ok "" ∧
    ProcessMessage (Except.ok (ParsedMsg.multi
      [⟨"application/octet-stream", Except.ok "PDF"⟩] none)) = ("", "", none) :=
  C2_amended [⟨"application/octet-stream", Except.ok "PDF"⟩]
    (by
      intro p hp
      rw [List.mem_singleton] at hp
      subst hp
      exact ⟨by decide, by decide⟩)

/-- C3 counterexample: when the markup-to-markdown conversion fails,
`ProcessMessage` still returns the trimmed break-normalized body as its
first component — partial output IS returned alongside the error,
contradicting the claim that neither form carries content. -/
theorem C3_counterexample :
    ProcessMessageWith (fun _ => Except.error Err.renderError)
      (Except.ok (ParsedMsg.single (Except.ok "hello"))) =
      ("hello", "", some Err.renderError) ∧ ("hello" : String) ≠ "" :=
  ⟨rfl, by decide⟩

/-- C3 (amended): when conversion fails the error is propagated and the
markdown form is empty, but the HTML form (the trimmed break-normalized
body) is still returned. -/
theorem C3_amended (convertString : String → Except Err String)
    (m : Except Err ParsedMsg) (body : String) (e : Err)
    (hbody : readMessageBody m = Except.ok body)
    (hfail : convertString (trimSpace ⟨replaceBreaksList body.data⟩) = Except.error e) :
    ProcessMessageWith convertString m =
      (trimSpace ⟨replaceBreaksList body.data⟩, "", some e) :=
  ProcessMessageWith_convErr convertString m body hbody e hfail

/-- C3 witness. -/
theorem C3_amended_witness :
    ProcessMessageWith (fun _ => Except.error Err.renderError)
      (Except.ok (ParsedMsg.single (Except.ok " partial output "))) =
      ("partial output", "", some Err.renderError) :=
  (C3_amended (fun _ => Except.error Err.renderError)
    (Except.ok (ParsedMsg.single (Except.ok " partial output ")))
    " partial output " Err.renderError rfl rfl).trans rfl

/-- C4 counterexample: for a successfully processed single-part message
whose body uses network line breaks, the CR LF pair survives verbatim in
the htmlForm (only break tags are normalized), contradicting the claim
that no CR LF remains in either output. -/
theorem C4_counterexample :
    ProcessMessage (Except.ok (ParsedMsg.single (Except.ok "line1\r\nline2"))) =
      ("line1\r\nline2", "line1\nline2", none) ∧
    hasCRLF ("line1\r\nline2" : String).data = true :=
  ⟨rfl, rfl⟩

/-- C4 (amended): for every successfully extracted body that uses network
line breaks (every CR is part of a CR LF pair), the markdown form contains
no CR LF sequence; the htmlForm, by contrast, may retain the input's
CR LF, as the counterexample shows. -/
theorem C4_amended (m : Except Err ParsedMsg) (body : String)
    (hbody : readMessageBody m = Except.ok body) (hcr : crOk body.data = true) :
    hasCRLF ((ProcessMessage m).2.1).data = false := by
  obtain ⟨md, hmd⟩ :
      ∃ md, ConvertString (trimSpace ⟨replaceBreaksList body.data⟩) = Except.ok md :=
    ⟨_, rfl⟩
  have h1 := ProcessMessageWith_ok ConvertString m body hbody md hmd
  have h2 : (ProcessMessage m).2.1 = md := by
    rw [show ProcessMessage m =
      (trimSpace ⟨replaceBreaksList body.data⟩, md, none) from h1]
  rw [h2]
  have h3 : crOk (trimSpace ⟨replaceBreaksList body.data⟩).data = true := by
    show crOk (trimSpaceList (replaceBreaksList body.data)) = true
    exact crOk_trimSpaceList _ (crOk_replaceBreaksList _ hcr)
  exact hasCRLF_eq_false_of_not_mem md.data
    (not_mem_cr_ConvertString (trimSpace ⟨replaceBreaksList body.data⟩) h3 md hmd)

/-- C4 witness. -/
theorem C4_amended_witness :
    hasCRLF ((ProcessMessage (Except.ok (ParsedMsg.single
      (Except.ok "a\r\nb")))).2.1).data = false :=
  C4_amended (Except.ok (ParsedMsg.single (Except.ok "a\r\nb"))) "a\r\nb"
    rfl (by decide)

/-- C5 counterexample: the claim includes the self-closing form without a
space before the slash, but the regexp `(?i)<br>|<br />` does not match
`<br/>`: the scan leaves the input unchanged and produces zero linefeeds
while the spec-worded break-tag count sees one tag. -/
theorem C5_counterexample :
    replaceBreaksList ("a<br/>b" : String).data = ("a<br/>b" : String).data ∧
    (replaceBreaksList ("a<br/>b" : String).data).count '\n' = 0 ∧
    specBreakTagCount ("a<br/>b" : String).data = 1 :=
  ⟨rfl, rfl, rfl⟩

/-- C5 (amended): each occurrence of `<br>` or `<br />` (letters
case-insensitive, the self-closing form only with the space before the
slash) is replaced by exactly one newline: for content with no other
newlines, the number of linefeeds in the output equals the number of
regexp matches in the input. -/
theorem C5_amended (l : List Char) (h : '\n' ∉ l) :
    (replaceBreaksList l).count '\n' = brMatchCount l :=
  count_newline_replaceBreaksList l h

/-- C5 witness: all four listed break-tag forms, each replaced by exactly
one linefeed. -/
theorem C5_amended_witness :
    (replaceBreaksList ("a<br>b<BR>c<br />d<BR />e" : String).data).count '\n' =
      brMatchCount ("a<br>b<BR>c<br />d<BR />e" : String).data ∧
    brMatchCount ("a<br>b<BR>c<br />d<BR />e" : String).data = 4 ∧
    replaceBreaksList ("a<br>b<BR>c<br />d<BR />e" : String).data =
      ("a\nb\nc\nd\ne" : String).data :=
  ⟨C5_amended ("a<br>b<BR>c<br />d<BR />e" : String).data (by decide), rfl, rfl⟩


/-- C6 counterexample: a single-part plain-text body that uses CR LF is
rendered with the CR LF kept in the htmlForm but converted to LF in the
markdown form (exactly as the repository's own "Two-line body" test
expects), so `htmlForm == plainForm == trimmed(body)` fails. -/
theorem C6_counterexample :
    ProcessMessage (Except.ok (ParsedMsg.single (Except.ok "first\r\nsecond"))) =
      ("first\r\nsecond", "first\nsecond", none) ∧
    ("first\r\nsecond" : String) ≠ ("first\nsecond" : String) :=
  ⟨rfl, by decide⟩

/-- C6 (amended): for every single-part message whose body is plain text
with no markup (no `<`) and no carriage return, `ProcessMessage` returns
`htmlForm = plainForm = trimmed(body)` — no spurious markup is added. -/
theorem C6_amended (body : String) (hlt : '<' ∉ body.data) (hcr : '\r' ∉ body.data) :
    ProcessMessage (Except.ok (ParsedMsg.single (Except.ok body))) =
      (trimSpace body, trimSpace body, none) := by
  have hbody : readMessageBody (Except.ok (ParsedMsg.single (Except.ok body))) =
      Except.ok body := readMessageBody_single (Except.ok body)
  have hbr : replaceBreaksList body.data = body.data :=
    replaceBreaksList_eq_self body.data hlt
  have htrim : trimSpace ⟨replaceBreaksList body.data⟩ = trimSpace body := by
    rw [hbr]
  have h1 : '<' ∉ (trimSpace body).data :=
    fun hm => hlt (mem_trimSpaceList body.data '<' hm)
  have h2 : '\r' ∉ (trimSpace body).data :=
    fun hm => hcr (mem_trimSpaceList body.data '\r' hm)
  have hconv : ConvertString (trimSpace body) = Except.ok (trimSpace body) := by
    rw [ConvertString_plain (trimSpace body) h1 h2]
    show Except.ok (⟨trimSpaceList (trimSpaceList body.data)⟩ : String) =
      Except.ok (⟨trimSpaceList body.data⟩ : String)
    rw [trimSpaceList_idem]
  have hfinal := ProcessMessageWith_ok ConvertString
    (Except.ok (ParsedMsg.single (Except.ok body))) body hbody (trimSpace body)
    (by rw [htrim]; exact hconv)
  exact hfinal.trans (by rw [htrim])

/-- C6 witness: matches the repository test scenario (a trailing newline is
trimmed, both forms equal). -/
theorem C6_amended_witness :
    ProcessMessage (Except.ok (ParsedMsg.single (Except.ok "This is an email\n"))) =
      ("This is an email", "This is an email", none) :=
  (C6_amended "This is an email\n" (by decide) (by decide)).trans rfl

/-- C7: neither rendered form of `ProcessMessage` has leading or trailing
whitespace (in particular a trailing break-tag sequence, normalized to a
trailing newline, is stripped); this holds for every input, error cases
returning empty strings included. -/
theorem C7_trimmed_outputs (m : Except Err ParsedMsg) :
    trimmedEdges ((ProcessMessage m).1).data = true ∧
    trimmedEdges ((ProcessMessage m).2.1).data = true := by
  cases hbody : readMessageBody m with
  | error e =>
    have h1 := ProcessMessageWith_err ConvertString m e hbody
    rw [show ProcessMessage m = ("", "", some e) from h1]
    exact ⟨rfl, rfl⟩
  | ok body =>
    obtain ⟨md, hmd⟩ :
        ∃ md, ConvertString (trimSpace ⟨replaceBreaksList body.data⟩) = Except.ok md :=
      ⟨_, rfl⟩
    have h1 := ProcessMessageWith_ok ConvertString m body hbody md hmd
    rw [show ProcessMessage m =
      (trimSpace ⟨replaceBreaksList body.data⟩, md, none) from h1]
    constructor
    · show trimmedEdges (trimSpaceList (replaceBreaksList body.data)) = true
      exact trimmedEdges_trimSpaceList _
    · exact trimmedEdges_ConvertString (trimSpace ⟨replaceBreaksList body.data⟩) md hmd

/-- C7 witness: a trailing break tag normalizes to a trailing newline and
is stripped from both forms. -/
theorem C7_trimmed_outputs_witness :
    trimmedEdges ((ProcessMessage (Except.ok (ParsedMsg.single
      (Except.ok "hi there<br>")))).1).data = true ∧
    trimmedEdges ((ProcessMessage (Except.ok (ParsedMsg.single
      (Except.ok "hi there<br>")))).2.1).data = true :=
  C7_trimmed_outputs (Except.ok (ParsedMsg.single (Except.ok "hi there<br>")))

/-- C8: `ProcessMessage` is deterministic — it is a pure function of its
input in this embedding, so two runs on equal inputs return equal
htmlForm, equal plainForm and the same error outcome; the same holds for
any fixed converter. -/
theorem C8_deterministic (m1 m2 : Except Err ParsedMsg) (h : m1 = m2) :
    ProcessMessage m1 = ProcessMessage m2 ∧
    ∀ convertString : String → Except Err String,
      ProcessMessageWith convertString m1 = ProcessMessageWith convertString m2 := by
  subst h
  exact ⟨rfl, fun _ => rfl⟩

/-- C8 witness. -/
theorem C8_deterministic_witness :
    ProcessMessage (Except.ok (ParsedMsg.single (Except.ok "same bytes"))) =
      ProcessMessage (Except.ok (ParsedMsg.single (Except.ok "same bytes"))) :=
  (C8_deterministic (Except.ok (ParsedMsg.single (Except.ok "same bytes")))
    (Except.ok (ParsedMsg.single (Except.ok "same bytes"))) rfl).1

/-- C9: for every multipart message whose (readable) parts contain no
`text/html` part, the extracted canonical body is the concatenation of the
contents of all `text/plain` parts in sibling order — later plain parts
are appended, not dropped and not replacing earlier ones. -/
theorem C9_plain_concat (ps : List (String × String))
    (h : ∀ q ∈ ps, q.1 ≠ "text/html") :
    readMultipartBody (ParsedMsg.multi
      (ps.map fun q => ⟨q.1, Except.ok q.2⟩) none) =
      Except.ok (plainConcat ps) := by
  have h1 := rmbLoop_all_plain ps "" h
  show rmbLoop (ps.map fun q => ⟨q.1, Except.ok q.2⟩) none "" =
    Except.ok (plainConcat ps)
  rw [h1, String.empty_append]

/-- C9 witness: two plain parts with a skipped attachment between them —
contents are concatenated in order. -/
theorem C9_plain_concat_witness :
    readMultipartBody (ParsedMsg.multi
      [⟨"text/plain", Except.ok "first "⟩,
       ⟨"image/png", Except.ok "IMG"⟩,
       ⟨"text/plain", Except.ok "second"⟩] none) = Except.ok "first second" := by
  have h := C9_plain_concat
    [("text/plain", "first "), ("image/png", "IMG"), ("text/plain", "second")]
    (by intro q hq; fin_cases hq <;> decide)
  exact h.trans rfl

/-- C10: whenever body extraction fails — the raw bytes do not parse, or a
multipart part cannot be read — `ProcessMessage` returns the extraction
error together with both output strings empty, for any converter (and in
particular for the modelled one). -/
theorem C10_extraction_error (convertString : String → Except Err String)
    (m : Except Err ParsedMsg) (e : Err)
    (h : readMessageBody m = Except.error e) :
    ProcessMessageWith convertString m = ("", "", some e) ∧
    ProcessMessage m = ("", "", some e) :=
  ⟨ProcessMessageWith_err convertString m e h,
   ProcessMessageWith_err ConvertString m e h⟩

/-- C10 witness: a multipart message whose plain part cannot be read. -/
theorem C10_extraction_error_witness :
    ProcessMessage (Except.ok (ParsedMsg.multi
      [⟨"text/plain", Except.error Err.readError⟩] none)) =
      ("", "", some Err.readError) :=
  (C10_extraction_error ConvertString
    (Except.ok (ParsedMsg.multi [⟨"text/plain", Except.error Err.readError⟩] none))
    Err.readError rfl).2

end Claims
end Tegami
